import Mathlib

/-!
Formal model of `dns_compare.py`, a script that resolves a list of domains
through competing DNS providers and compares ping latency per provider.

Numeric values that the script stores as Python floats are modelled as
exact rationals (the parsed texts are finite decimal literals, so every
value is representable); machine-level float rounding is outside the model.
Strings are modelled as `String`/`List Char`.
-/

set_option linter.unusedVariables false

namespace DnsCompare

/-! ## ProbeResultParser: `PingResults.PING_RESULTS_REGEX` (dns_compare.py lines 119-143)

The regex
`(?P<transmitted>\d+) packets transmitted, (?P<received>\d+) received,
(?:\+\d+ errors, )?(?P<packet_loss>FLOAT)% packet loss, time FLOATms\n
(?:rtt min/avg/max/mdev = (?P<min>FLOAT)/(?P<avg>FLOAT)/(?P<max>FLOAT)/(?P<mdev>FLOAT) ms)?\n\Z`
(with `FLOAT = \d+\.?\d*`, `INT = \d+`) is applied with `re.search`, so a
match may start anywhere but must extend to the end of the input (`\Z`).
All repetitions are greedy over digit runs followed by non-digit literals,
so matching is deterministic except for the two optional groups, which are
modelled with explicit alternative fallback mirroring regex backtracking. -/

/-- Maximal leading run of decimal digits of a character list, with the rest. -/
def takeDigits : List Char → List Char × List Char
  | [] => ([], [])
  | c :: cs =>
    if c.isDigit then
      let p := takeDigits cs
      (c :: p.1, p.2)
    else ([], c :: cs)

/-- Match a literal character sequence at the front of the input (regex literal text). -/
def dropLit : List Char → List Char → Option (List Char)
  | [], s => some s
  | _ :: _, [] => none
  | c :: l, d :: s => if c = d then dropLit l s else none

/-- Greedy match of `INT = \d+`: the captured digit run and the rest. -/
def parseINT (s : List Char) : Option (List Char × List Char) :=
  let p := takeDigits s
  if p.1 = [] then none else some p

/-- Continuation of `FLOAT = \d+\.?\d*` after the integer digits. -/
def floatRest (d : List Char) : List Char → Option (List Char × List Char)
  | [] => some (d, [])
  | c :: r =>
    if c = '.' then
      let q := takeDigits r
      some (d ++ '.' :: q.1, q.2)
    else some (d, c :: r)

/-- Greedy match of `FLOAT = \d+\.?\d*`: the captured token text and the rest. -/
def parseFLOAT (s : List Char) : Option (List Char × List Char) :=
  let p := takeDigits s
  if p.1 = [] then none else floatRest p.1 p.2

/-- Whether matching of a digit run would continue into this input
(true iff the input starts with a digit). -/
def headDigit : List Char → Bool
  | [] => false
  | c :: _ => c.isDigit

/-- Whether greedy `FLOAT` matching must stop at this input
(no leading digit and no leading dot). -/
def headStop : List Char → Bool
  | [] => true
  | c :: _ => !c.isDigit && c != '.'

/-- Captured texts of the four rtt groups `min`, `avg`, `max`, `mdev`. -/
structure RttG where
  min : List Char
  avg : List Char
  max : List Char
  mdev : List Char
deriving DecidableEq

/-- Captured texts of all named groups of `PING_RESULTS_REGEX`. -/
structure PingGroups where
  transmitted : List Char
  received : List Char
  packet_loss : List Char
  rtt : Option RttG
deriving DecidableEq

/-- The optional second line `rtt min/avg/max/mdev = FLOAT/FLOAT/FLOAT/FLOAT ms`. -/
def matchRtt (s : List Char) : Option (RttG × List Char) :=
  (dropLit ("rtt min/avg/max/mdev = ".toList) s).bind fun s1 =>
  (parseFLOAT s1).bind fun a =>
  (dropLit ['/'] a.2).bind fun s2 =>
  (parseFLOAT s2).bind fun b =>
  (dropLit ['/'] b.2).bind fun s3 =>
  (parseFLOAT s3).bind fun c =>
  (dropLit ['/'] c.2).bind fun s4 =>
  (parseFLOAT s4).bind fun d =>
  (dropLit (" ms".toList) d.2).map fun s5 => (⟨a.1, b.1, c.1, d.1⟩, s5)

/-- Tail of the pattern after the first `\n`: optional rtt line, `\n`, then `\Z`.
The greedy optional group backtracks, hence the alternative fallback. -/
def matchTail2 (s : List Char) : Option (Option RttG) :=
  ((matchRtt s).bind fun r =>
    (dropLit ['\n'] r.2).bind fun s6 =>
    if s6 = [] then some (some r.1) else none).orElse fun _ =>
  (dropLit ['\n'] s).bind fun s6 =>
  if s6 = [] then some none else none

/-- Pattern from the `packet_loss` group on, given the already captured
`transmitted` and `received` texts. -/
def matchAfterErrors (tr rc : List Char) (s : List Char) : Option PingGroups :=
  (parseFLOAT s).bind fun loss =>
  (dropLit ("% packet loss, time ".toList) loss.2).bind fun s4 =>
  (parseFLOAT s4).bind fun t =>
  (dropLit ("ms".toList) t.2).bind fun s5 =>
  (dropLit ['\n'] s5).bind fun s6 =>
  (matchTail2 s6).map fun rtt => ⟨tr, rc, loss.1, rtt⟩

/-- Anchored match of the whole pattern at the current position, consuming the
entire remaining input (`\Z`). The optional `(?:\+\d+ errors, )?` group is
greedy with backtracking into the rest of the pattern. -/
def matchAt (s : List Char) : Option PingGroups :=
  (parseINT s).bind fun tr =>
  (dropLit (" packets transmitted, ".toList) tr.2).bind fun s1 =>
  (parseINT s1).bind fun rc =>
  (dropLit (" received, ".toList) rc.2).bind fun s2 =>
  (((dropLit ['+'] s2).bind fun e1 =>
    (parseINT e1).bind fun n =>
    (dropLit (" errors, ".toList) n.2).bind fun s3 =>
    matchAfterErrors tr.1 rc.1 s3).orElse fun _ =>
  matchAfterErrors tr.1 rc.1 s2)

/-- Model of `re.search`: try the anchored match at every position, leftmost first. -/
def pingSearch : List Char → Option PingGroups
  | [] => matchAt []
  | c :: rest => (matchAt (c :: rest)).orElse fun _ => pingSearch rest

/-- Python `int` on a captured digit run. -/
def digitsToNat (ds : List Char) : Nat :=
  ds.foldl (fun n c => 10 * n + (c.toNat - 48)) 0

/-- Python `float` on a captured `FLOAT` token (`\d+\.?\d*`), as an exact rational. -/
def floatVal (t : List Char) : ℚ :=
  let p := takeDigits t
  match p.2 with
  | [] => (digitsToNat p.1 : ℚ)
  | c :: fp =>
    if c = '.' then (digitsToNat p.1 : ℚ) + (digitsToNat fp : ℚ) / (10 ^ fp.length : ℚ)
    else (digitsToNat p.1 : ℚ)

/-- The fields computed by `PingResults.__init__` (lines 133-139). -/
structure PingData where
  transmitted : Nat
  received : Nat
  packet_loss : ℚ
  min : Option ℚ
  avg : Option ℚ
  max : Option ℚ
  mdev : Option ℚ
deriving DecidableEq

/-- Constructor `PingResults.__init__` (lines 129-139): search the regex; on no match raise
`RuntimeError('\n' + output)` (the error value carries the raw text); otherwise
convert the captured groups. The class has no other failure mode. -/
def PingResults (output : List Char) : Except (List Char) PingData :=
  match pingSearch output with
  | none => .error ('\n' :: output)
  | some m =>
    .ok { transmitted := digitsToNat m.transmitted
          received := digitsToNat m.received
          packet_loss := floatVal m.packet_loss / 100
          min := m.rtt.map fun r => floatVal r.min
          avg := m.rtt.map fun r => floatVal r.avg
          max := m.rtt.map fun r => floatVal r.max
          mdev := m.rtt.map fun r => floatVal r.mdev }

/-! ## Texts matching the two-line grammar of the regex

A `PingOutput` is an arbitrary text matching the two-line grammar (statistics
line, optional rtt line, nothing after), parameterised by its numeric tokens;
`PingOutput.render` produces the text. These definitions follow the grammar of
`PING_RESULTS_REGEX` itself and are used to quantify over all matching texts. -/

/-- A `FLOAT = \d+\.?\d*` token: integer digits and an optional fractional part
(`fp = some f` renders as `ip.f`, where `f` may be empty). -/
structure FloatTok where
  ip : List Char
  fp : Option (List Char)
deriving DecidableEq

/-- Text of a `FLOAT` token. -/
def FloatTok.render (t : FloatTok) : List Char :=
  t.ip ++ (match t.fp with | none => [] | some f => '.' :: f)

/-- Well-formedness of a `FLOAT` token: nonempty integer digits, digit fraction. -/
def FloatTok.good (t : FloatTok) : Bool :=
  !t.ip.isEmpty && t.ip.all Char.isDigit &&
    (match t.fp with | none => true | some f => f.all Char.isDigit)

/-- One text matching the two-line grammar, by its tokens. -/
structure PingOutput where
  transmitted : List Char
  received : List Char
  errors : Option (List Char)
  loss : FloatTok
  time : FloatTok
  rtt : Option (FloatTok × FloatTok × FloatTok × FloatTok)
deriving DecidableEq

/-- Text of the optional `+N errors, ` part. -/
def errPart : Option (List Char) → List Char
  | none => []
  | some n => '+' :: (n ++ " errors, ".toList)

/-- Text of the optional rtt line plus the final mandatory newline. -/
def rttPart : Option (FloatTok × FloatTok × FloatTok × FloatTok) → List Char
  | none => ['\n']
  | some (a, b, c, d) =>
    "rtt min/avg/max/mdev = ".toList ++
      (a.render ++ ('/' :: (b.render ++ ('/' :: (c.render ++
        ('/' :: (d.render ++ (" ms".toList ++ ['\n']))))))))

/-- The full text of a grammar instance. -/
def PingOutput.render (g : PingOutput) : List Char :=
  g.transmitted ++ (" packets transmitted, ".toList ++
    (g.received ++ (" received, ".toList ++
      (errPart g.errors ++ (g.loss.render ++ ("% packet loss, time ".toList ++
        (g.time.render ++ ("ms".toList ++ ('\n' :: rttPart g.rtt)))))))))

/-- Digit-run well-formedness of an `INT` capture. -/
def goodINT (d : List Char) : Bool :=
  !d.isEmpty && d.all Char.isDigit

/-- Well-formedness of a whole grammar instance. -/
def PingOutput.good (g : PingOutput) : Bool :=
  goodINT g.transmitted && goodINT g.received &&
    (match g.errors with | none => true | some n => goodINT n) &&
    g.loss.good && g.time.good &&
    (match g.rtt with
      | none => true
      | some (a, b, c, d) => a.good && b.good && c.good && d.good)

/-- The captured rtt texts of a rendered rtt quadruple. -/
def rttRender (r : FloatTok × FloatTok × FloatTok × FloatTok) : RttG :=
  ⟨r.1.render, r.2.1.render, r.2.2.1.render, r.2.2.2.render⟩

/-! ## ExternalProber: `ping` (dns_compare.py lines 148-158)

The coroutine execs `'ping', '-qc1', addr` — the command line is a pure
function of its arguments, modelled here. Note the `count` parameter is
accepted (and `main` passes `count=best_of`) but does not appear in the
command: the `-qc1` flag is hard-coded, so the utility always sends exactly
one packet. -/

/-- The argv built by `ping(addr, count)` (line 150). -/
def ping (addr : String) (count : Nat) : List String :=
  ["ping", "-qc1", addr]

/-! ## Static configuration (dns_compare.py lines 9-12) -/

/-- The `SERVERS` dict (insertion-ordered in Python 3.7+). -/
def SERVERS : List (String × List String) :=
  [("cloudflare", ["1.1.1.1", "1.0.0.1"]), ("google", ["8.8.8.8", "8.8.4.4"])]

/-! ## ServerAssignment: `main` lines 205-212

`main` builds `server_addrs` by bucketing the i-th address of every provider
into bucket i, then flattening. `addProvider` is the inner
`for i, addr in enumerate(addrs)` loop for one provider. -/

/-- Inner loop of the assignment construction for one provider: place the
address at position `i` into bucket `i`, growing the bucket list on demand
(`if len(server_addrs) <= i: server_addrs.append([])`). -/
def addProvider (name : String) :
    List String → Nat → List (List (String × String)) → List (List (String × String))
  | [], _, buckets => buckets
  | addr :: rest, i, buckets =>
    let b1 := if buckets.length ≤ i then buckets ++ [[]] else buckets
    addProvider name rest (i + 1) (b1.set i (b1.getD i [] ++ [(name, addr)]))

/-- The `server_addrs` list as computed by `main` (lines 206-212) from a provider
configuration: bucket per index, then flatten. -/
def server_addrs (servers : List (String × List String)) : List (String × String) :=
  (servers.foldl (fun buckets p => addProvider p.1 p.2 0 buckets) []).flatten

/-- All (provider, server) pairs of a configuration, in configuration order. -/
def configPairs (servers : List (String × List String)) : List (String × String) :=
  servers.flatMap fun p => p.2.map fun a => (p.1, a)

/-- Pointwise concatenation of two bucket lists, keeping the longer tail.
Used to characterise what the bucket loop of `main` builds. -/
def mergeBuckets : List (List (String × String)) → List (List (String × String)) →
    List (List (String × String))
  | [], ys => ys
  | x :: xs, [] => x :: xs
  | x :: xs, y :: ys => (x ++ y) :: mergeBuckets xs ys

/-- The bucket list obtained by merging each provider's per-index singleton
buckets, in configuration order. -/
def specBuckets : List (String × List String) → List (List (String × String))
  | [] => []
  | p :: rest => mergeBuckets (p.2.map fun a => [(p.1, a)]) (specBuckets rest)

/-- The longest server list in the configuration (number of round-robin
indices). -/
def maxLen : List (String × List String) → Nat
  | [] => 0
  | p :: rest => max p.2.length (maxLen rest)

/-- The order claimed by the specification, written from its words: iterate
the server index `i` 0, 1, 2, … (index-major); for each `i` take, in
configuration order (provider-order-minor), the i-th server of every provider
that still has one (providers with fewer servers are skipped). -/
def roundRobinSpec (servers : List (String × List String)) : List (String × String) :=
  (List.range (maxLen servers)).flatMap fun i =>
    servers.filterMap fun p => (p.2.get? i).map fun a => (p.1, a)

/-! ## MeasurementTask: `get_results` (dns_compare.py lines 179-197)

The exception flow of `get_results` is modelled explicitly. `Exc.cancelled`
stands for `asyncio.CancelledError` (re-raised unmodified by the first
`except` clause of each stage); `runtimeError`/`otherError` stand for the
`Exception` subclasses caught by `except Exception`. The two external stages
are parameters: `digR` is the outcome of `dig(domain, server)` (`ok none` =
empty output = no record, `ok (some a)` = first address) and `pingR addr` the
outcome of `ping(addr)`. The returned value models the coroutine's result:
`.ok` a returned value, `.error` a raised exception. -/

/-- Exceptions relevant to `get_results`. -/
inductive Exc where
  | cancelled
  | runtimeError (msg : String)
  | otherError (msg : String)
deriving DecidableEq

/-- Task body `get_results` (lines 179-197): resolve, bail out on no record, else probe;
cancellation re-raised unmodified, any other exception wrapped into a
contextual `RuntimeError`. -/
def get_results (domain server provider : String)
    (digR : Except Exc (Option String))
    (pingR : String → Except Exc PingData) : Except Exc (Option PingData) :=
  match digR with
  | .error Exc.cancelled => .error Exc.cancelled
  | .error _ =>
    .error (Exc.runtimeError
      ("Dig error: " ++ domain ++ " from " ++ provider ++ " (" ++ server ++ ")"))
  | .ok none => .ok none
  | .ok (some addr) =>
    match pingR addr with
    | .error Exc.cancelled => .error Exc.cancelled
    | .error _ =>
      .error (Exc.runtimeError
        ("Ping error: " ++ domain ++ " (" ++ addr ++ ") from " ++ provider ++
          " (" ++ server ++ ")"))
    | .ok res => .ok (some res)

deriving instance DecidableEq for Except

/-- Whether an `Except` is a returned value (`.ok`) rather than a raised one. -/
def isOkE {ε α : Type} : Except ε α → Bool
  | .ok _ => true
  | .error _ => false

/-! ## Scheduler result collection: `asyncio.gather` (dns_compare.py line 223)

`main` awaits `asyncio.gather(*awaitables)` without `return_exceptions=True`:
if every task returns, `gather` returns the list of results in task order;
if some task raises, `gather` propagates a raised exception instead of
returning a result list. (Which failing task's exception surfaces first is a
matter of completion timing; the model propagates the first in task order.) -/

/-- Model of `asyncio.gather` over the already-determined task outcomes. -/
def gather {α : Type} : List (Except Exc α) → Except Exc (List α)
  | [] => .ok []
  | r :: rs =>
    match r with
    | .error e => .error e
    | .ok a =>
      match gather rs with
      | .error e => .error e
      | .ok as => .ok (a :: as)

/-- Length of a gathered result list (0 when an exception propagated). -/
def exceptLen {ε α : Type} : Except ε (List α) → Nat
  | .ok xs => xs.length
  | .error _ => 0

/-! ## Aggregator: `main` lines 225-236

Per (domain, provider) cell: `mins` is the list of contributed minimum
latencies (`None` for a task that returned no result). The code computes
`filtered = list(filter(None, mins))` — Python truthiness, which drops both
`None` and `0.0` — then renders `sum/len` or `'∞'`, plus a
`(usable/attempted)` suffix when some entries were dropped. -/

/-- Python truthiness filter `filter(None, ·)` on an optional float:
`None` and `0.0` are falsy and dropped. -/
def pyTruthy : Option ℚ → Option ℚ
  | none => none
  | some x => if x = 0 then none else some x

/-- A rendered aggregate cell: the mean (`none` renders as `'∞'`), the two
counts, and the `(usable/attempted)` suffix when present. -/
structure AggCell where
  mean : Option ℚ
  usable : Nat
  attempted : Nat
  anno : Option (Nat × Nat)
deriving DecidableEq

/-- The aggregation of one (domain, provider) cell (lines 233-236). -/
def aggregateCell (mins : List (Option ℚ)) : AggCell :=
  let filtered := mins.filterMap pyTruthy
  { mean := if filtered.length = 0 then none else some (filtered.sum / (filtered.length : ℚ))
    usable := filtered.length
    attempted := mins.length
    anno := if filtered.length = mins.length then none
            else some (filtered.length, mins.length) }

/-! ## Scheduler concurrency: `asyncio.Semaphore(50)` (lines 182, 203)

Small-step model of the batch run: each constructed task is `idle` until it
acquires a semaphore permit (`async with semaphore:`), is then `resolving`
(awaiting `dig`), then either exits directly (no record returned, or the
resolve stage raised — both leave the `async with` block, releasing) or moves
to `probing` (awaiting `ping`) and exits when the probe completes or fails.
The permit is held for the whole two-stage body. -/

/-- Execution phase of one measurement task. -/
inductive Phase where
  | idle
  | resolving
  | probing
  | done
deriving DecidableEq

/-- A task is in flight between the begin-resolve and end-probe points. -/
def Phase.busy : Phase → Bool
  | .resolving => true
  | .probing => true
  | _ => false

/-- Scheduler state: per-task phases and remaining semaphore permits. -/
structure SchedState where
  tasks : List Phase
  permits : Nat
deriving DecidableEq

/-- Number of tasks past begin-resolve and not yet past end-probe. -/
def inFlight (s : SchedState) : Nat :=
  s.tasks.countP Phase.busy

/-- One scheduler step. `start` consumes a permit (possible only when one is
free); the two `Exit` steps model leaving the `async with` block, which
releases the permit; `resolved` (dig returned an address, ping begins) holds
the permit. -/
inductive SchedStep : SchedState → SchedState → Prop where
  | start (ts : List Phase) (n i : Nat) (h : ts.get? i = some .idle) :
      SchedStep ⟨ts, n + 1⟩ ⟨ts.set i .resolving, n⟩
  | resolved (ts : List Phase) (n i : Nat) (h : ts.get? i = some .resolving) :
      SchedStep ⟨ts, n⟩ ⟨ts.set i .probing, n⟩
  | resolveExit (ts : List Phase) (n i : Nat) (h : ts.get? i = some .resolving) :
      SchedStep ⟨ts, n⟩ ⟨ts.set i .done, n + 1⟩
  | probeExit (ts : List Phase) (n i : Nat) (h : ts.get? i = some .probing) :
      SchedStep ⟨ts, n⟩ ⟨ts.set i .done, n + 1⟩

/-- States reachable from `init` by scheduler steps. -/
inductive SchedReachable (init : SchedState) : SchedState → Prop where
  | refl : SchedReachable init init
  | step {s s' : SchedState} :
      SchedReachable init s → SchedStep s s' → SchedReachable init s'

/-- Initial batch state: every constructed task idle, all permits free
(`asyncio.Semaphore(50)` in `main`, line 203, gives `cap = 50`). -/
def initState (numTasks cap : Nat) : SchedState :=
  ⟨List.replicate numTasks .idle, cap⟩

/-! ## Concrete sample values used in closed statements -/

/-- A sample parsed probe result. -/
def pd0 : PingData :=
  ⟨1, 1, 0, some 1, some 1, some 1, some 0⟩

/-- A sample well-formed grammar instance with an rtt line. -/
def g0 : PingOutput :=
  ⟨['1', '0'], ['9'], none, ⟨['0'], none⟩, ⟨['5'], none⟩,
    some (⟨['1'], none⟩, ⟨['2'], none⟩, ⟨['3'], none⟩, ⟨['0'], none⟩)⟩

/-- A sample well-formed grammar instance without an rtt line (100% loss). -/
def g1 : PingOutput :=
  ⟨['1'], ['0'], none, ⟨['1', '0', '0'], none⟩, ⟨['0'], none⟩, none⟩

/-! # Theorems -/

/-! ## C3: the repetition count and the `ping` invocation -/

/-- C3 (code bug evidence): `ping(addr, count)` builds the hard-coded command
`['ping', '-qc1', addr]`; the `count` argument (the scheduler's `best_of = 3`)
never reaches the invocation, so the utility sends exactly one packet and the
reported min is not a best-of-3. -/
theorem C3_count_ignored :
    ping "8.8.8.8" 3 = ["ping", "-qc1", "8.8.8.8"] ∧
    (∀ (addr : String) (c1 c2 : Nat), ping addr c1 = ping addr c2) ∧
    ping "8.8.8.8" 3 ≠ ["ping", "-qc3", "8.8.8.8"] :=
  ⟨rfl, fun _ _ _ => rfl, by decide⟩

/-! ## C9: cancellation propagates unmodified -/

/-- C9: if either stage of `get_results` raises `CancelledError`, the coroutine
re-raises it unmodified — it is never wrapped into a contextual `RuntimeError`
and never turned into a returned value (`.ok`). -/
theorem C9_cancellation_propagates (domain server provider : String)
    (digR : Except Exc (Option String)) (pingR : String → Except Exc PingData) :
    (digR = .error .cancelled →
      get_results domain server provider digR pingR = .error .cancelled) ∧
    (∀ addr : String, digR = .ok (some addr) → pingR addr = .error .cancelled →
      get_results domain server provider digR pingR = .error .cancelled) := by
  constructor
  · intro h; subst h; rfl
  · intro addr h hp; subst h; simp [get_results, hp]

theorem C9_witness :
    get_results "google.com" "1.1.1.1" "cloudflare" (.error .cancelled)
        (fun _ => .ok pd0) = .error .cancelled ∧
    get_results "google.com" "1.1.1.1" "cloudflare" (.ok (some "142.250.72.14"))
        (fun _ => .error .cancelled) = .error .cancelled :=
  ⟨(C9_cancellation_propagates "google.com" "1.1.1.1" "cloudflare" _ _).1 rfl,
   (C9_cancellation_propagates "google.com" "1.1.1.1" "cloudflare" _ _).2
     "142.250.72.14" rfl rfl⟩

/-! ## C1: failure handling at the task boundary -/

/-- C1 (counterexample): on an expected resolve failure the task does NOT
return a tagged outcome value — `get_results` raises (models as `.error`),
propagating a `RuntimeError` to its caller. -/
theorem C1_counterexample :
    isOkE (get_results "google.com" "1.1.1.1" "cloudflare"
        (.error (.runtimeError "dig timed out")) (fun _ => .ok pd0)) = false ∧
    get_results "google.com" "1.1.1.1" "cloudflare"
        (.error (.runtimeError "dig timed out")) (fun _ => .ok pd0)
      = .error (.runtimeError "Dig error: google.com from cloudflare (1.1.1.1)") :=
  ⟨rfl, by decide⟩

/-- C1 (amended): for every expected (non-cancellation) failure of the resolve
or probe stage, `get_results` raises a `RuntimeError` tagged with the stage and
the (domain, provider, server[, address]) context — an exception propagating to
the caller, not a returned `Failure` value; a no-record resolve returns `None`. -/
theorem C1_failure_tagging (domain server provider : String)
    (digR : Except Exc (Option String)) (pingR : String → Except Exc PingData) :
    (∀ e : Exc, e ≠ .cancelled → digR = .error e →
      get_results domain server provider digR pingR =
        .error (.runtimeError ("Dig error: " ++ domain ++ " from " ++ provider ++
          " (" ++ server ++ ")"))) ∧
    (∀ (addr : String) (e : Exc), digR = .ok (some addr) → e ≠ .cancelled →
      pingR addr = .error e →
      get_results domain server provider digR pingR =
        .error (.runtimeError ("Ping error: " ++ domain ++ " (" ++ addr ++
          ") from " ++ provider ++ " (" ++ server ++ ")"))) ∧
    (digR = .ok none → get_results domain server provider digR pingR = .ok none) := by
  refine ⟨?_, ?_, ?_⟩
  · intro e he h
    subst h
    cases e with
    | cancelled => exact absurd rfl he
    | runtimeError m => rfl
    | otherError m => rfl
  · intro addr e h he hp
    subst h
    cases e with
    | cancelled => exact absurd rfl he
    | runtimeError m => simp [get_results, hp]
    | otherError m => simp [get_results, hp]
  · intro h; subst h; rfl

theorem C1_witness :
    get_results "google.com" "1.1.1.1" "cloudflare"
        (.error (.otherError "fork failed")) (fun _ => .ok pd0)
      = .error (.runtimeError "Dig error: google.com from cloudflare (1.1.1.1)") ∧
    get_results "youtube.com" "8.8.8.8" "google" (.ok (some "1.2.3.4"))
        (fun _ => .error (.runtimeError "ping exited 2"))
      = .error (.runtimeError "Ping error: youtube.com (1.2.3.4) from google (8.8.8.8)") ∧
    get_results "yahoo.com" "8.8.4.4" "google" (.ok none) (fun _ => .ok pd0)
      = .ok none := by
  refine ⟨?_, ?_, ?_⟩
  · rw [(C1_failure_tagging "google.com" "1.1.1.1" "cloudflare" _ _).1
      (.otherError "fork failed") (by decide) rfl]
    decide
  · rw [(C1_failure_tagging "youtube.com" "8.8.8.8" "google" _ _).2.1
      "1.2.3.4" (.runtimeError "ping exited 2") rfl (by decide) rfl]
    decide
  · exact (C1_failure_tagging "yahoo.com" "8.8.4.4" "google" _ _).2.2 rfl

/-! ## C2: batch collection under task failure -/

/-- C2 (counterexample): with one failing task among the batch outcomes,
`asyncio.gather` (no `return_exceptions`) propagates the exception — the batch
does not produce one outcome per task. -/
theorem C2_counterexample :
    gather [Except.ok (some pd0), Except.error (Exc.runtimeError "Dig error: x"),
        Except.ok (none : Option PingData)]
      = .error (Exc.runtimeError "Dig error: x") ∧
    isOkE (gather [Except.ok (some pd0), Except.error (Exc.runtimeError "Dig error: x"),
        Except.ok (none : Option PingData)]) = false :=
  ⟨rfl, rfl⟩

/-- C2 (amended): `gather` returns the full per-task result list (one entry per
task) exactly when no task raised; as soon as any task raises
`ResolveFailure`/`ProbeFailure`, `gather` propagates an exception and no
outcome list is produced for the batch. -/
theorem C2_batch_collection (rs : List (Except Exc (Option PingData))) :
    ((∀ r ∈ rs, isOkE r = true) →
      isOkE (gather rs) = true ∧ exceptLen (gather rs) = rs.length) ∧
    (∀ e : Exc, Except.error e ∈ rs → isOkE (gather rs) = false) := by
  induction rs with
  | nil =>
    constructor
    · intro _; exact ⟨rfl, rfl⟩
    · intro e he; simp at he
  | cons r rest ih =>
    constructor
    · intro hall
      have hr := hall r (List.mem_cons_self r rest)
      cases r with
      | error e => simp [isOkE] at hr
      | ok a =>
        have h2 := ih.1 fun x hx => hall x (List.mem_cons_of_mem _ hx)
        cases hg : gather rest with
        | error e => rw [hg] at h2; simp [isOkE] at h2
        | ok xs =>
          rw [hg] at h2
          simp only [exceptLen] at h2
          simp [gather, hg, isOkE, exceptLen, h2.2]
    · intro e he
      rcases List.mem_cons.mp he with h | h

      · rw [← h]; rfl
      · cases r with
        | error e2 => rfl
        | ok a =>
          have h3 := ih.2 e h
          cases hg : gather rest with
          | error e2 => simp [gather, hg, isOkE]
          | ok xs => rw [hg] at h3; simp [isOkE] at h3

theorem C2_witness :
    (isOkE (gather [Except.ok (some pd0), Except.ok (none : Option PingData)]) = true ∧
      exceptLen (gather [Except.ok (some pd0), Except.ok (none : Option PingData)]) = 2) ∧
    isOkE (gather [Except.ok (some pd0),
        Except.error (Exc.runtimeError "boom")]) = false :=
  ⟨(C2_batch_collection _).1 (by intro r hr; fin_cases hr <;> rfl),
   (C2_batch_collection _).2 (Exc.runtimeError "boom")
     (by simp)⟩

/-! ## C4: aggregation of a (domain, provider) cell -/

/-- The Python-truthiness filter keeps exactly the present nonzero entries. -/
theorem pyTruthy_length (mins : List (Option ℚ)) :
    (mins.filterMap pyTruthy).length = mins.countP fun o => o.getD 0 != 0 := by
  induction mins with
  | nil => rfl
  | cons o rest ih =>
    cases o with
    | none => simpa [pyTruthy, List.countP_cons] using ih
    | some x =>
      by_cases hx : x = 0
      · subst hx; simp [pyTruthy, List.countP_cons, ih]
      · simp [pyTruthy, hx, List.countP_cons, ih]

/-- Dropping the (zero-valued) falsy entries does not change the sum of the
present entries. -/
theorem pyTruthy_sum (mins : List (Option ℚ)) :
    (mins.filterMap pyTruthy).sum = (mins.filterMap id).sum := by
  induction mins with
  | nil => rfl
  | cons o rest ih =>
    cases o with
    | none => simpa [pyTruthy] using ih
    | some x =>
      by_cases hx : x = 0
      · subst hx; simp [pyTruthy, ih]
      · simp [pyTruthy, hx, ih]

/-- C4 (counterexample): for contributed minima `[0.0, absent]` the claim says
usable-count = 1 (one present minimum) and mean = 0; the code's
`filter(None, mins)` also drops the present `0.0`, giving usable-count 0 and
the `∞` sentinel. -/
theorem C4_counterexample :
    (aggregateCell [some (0 : ℚ), none]).usable = 0 ∧
    ([some (0 : ℚ), none].filterMap id).length = 1 ∧
    (aggregateCell [some (0 : ℚ), none]).mean = none := by
  refine ⟨by decide, by decide, by decide⟩

/-- C4 (amended): attempted-count is the number of contributed outcomes,
usable-count the number of present AND nonzero minima (Python truthiness
excludes a present `0.0` along with absent values), the mean is the sum of the
present minima divided by usable-count when that is nonzero and the `∞`
sentinel otherwise, and the `usable/attempted` annotation appears exactly when
the two counts differ. The spec's examples hold as stated. -/
theorem C4_aggregation :
    (∀ mins : List (Option ℚ),
      (aggregateCell mins).attempted = mins.length ∧
      (aggregateCell mins).usable = (mins.countP fun o => o.getD 0 != 0) ∧
      (aggregateCell mins).mean =
        (if (aggregateCell mins).usable = 0 then none
         else some ((mins.filterMap id).sum / ((aggregateCell mins).usable : ℚ))) ∧
      (aggregateCell mins).anno =
        (if (aggregateCell mins).usable = (aggregateCell mins).attempted then none
         else some ((aggregateCell mins).usable, (aggregateCell mins).attempted))) ∧
    aggregateCell [some 10, some 20, none] = ⟨some 15, 2, 3, some (2, 3)⟩ ∧
    aggregateCell [none, none] = ⟨none, 0, 2, some (0, 2)⟩ := by
  refine ⟨?_, by simp [aggregateCell, pyTruthy]; norm_num, by simp [aggregateCell, pyTruthy]⟩
  intro mins
  refine ⟨rfl, pyTruthy_length mins, ?_, rfl⟩
  simp only [aggregateCell, pyTruthy_sum]

/-! ## C10: the concurrency ceiling -/

/-- Effect of updating one list position on `countP`. -/
theorem countP_set_get? {α : Type} (p : α → Bool) (l : List α) (i : Nat) (x y : α)
    (h : l.get? i = some y) :
    (l.set i x).countP p + (if p y then 1 else 0)
      = l.countP p + (if p x then 1 else 0) := by
  induction l generalizing i with
  | nil => simp at h
  | cons a t ih =>
    cases i with
    | zero =>
      simp only [List.get?_cons_zero, Option.some.injEq] at h
      subst h
      simp only [List.set_cons_zero, List.countP_cons]
      omega
    | succ i =>
      simp only [List.get?_cons_succ] at h
      simp only [List.set_cons_succ, List.countP_cons]
      have := ih i h
      omega

/-- Each scheduler step preserves in-flight-count + free-permits. -/
theorem schedStep_inFlight {s s' : SchedState} (h : SchedStep s s') :
    inFlight s' + s'.permits = inFlight s + s.permits := by
  cases h with
  | start ts n i hi =>
    have hc := countP_set_get? Phase.busy ts i .resolving .idle hi
    simp [Phase.busy] at hc
    simp only [inFlight]
    omega
  | resolved ts n i hi =>
    have hc := countP_set_get? Phase.busy ts i .probing .resolving hi
    simp [Phase.busy] at hc
    simp only [inFlight]
    omega
  | resolveExit ts n i hi =>
    have hc := countP_set_get? Phase.busy ts i .done .resolving hi
    simp [Phase.busy] at hc
    simp only [inFlight]
    omega
  | probeExit ts n i hi =>
    have hc := countP_set_get? Phase.busy ts i .done .probing hi
    simp [Phase.busy] at hc
    simp only [inFlight]
    omega

/-- Reachable batch states satisfy the semaphore invariant. -/
theorem reachable_inFlight {numTasks cap : Nat} {s : SchedState}
    (h : SchedReachable (initState numTasks cap) s) :
    inFlight s + s.permits = cap := by
  induction h with
  | refl =>
    have h0 : inFlight (initState numTasks cap) = 0 := by
      simp [inFlight, initState, List.countP_eq_zero, List.mem_replicate, Phase.busy]
    rw [h0]
    simp [initState]
  | step hr hs ih => rw [schedStep_inFlight hs, ih]

/-- C10: in every state reachable during a batch run started with
`asyncio.Semaphore(50)`, at most 50 tasks are between the begin-resolve and
end-probe points — the permit is held across the full two-stage body (the
`resolved` step releases nothing). -/
theorem C10_concurrency_ceiling (numTasks : Nat) (s : SchedState)
    (h : SchedReachable (initState numTasks 50) s) : inFlight s ≤ 50 := by
  have := reachable_inFlight h
  omega

theorem C10_witness : inFlight (initState 400 50) ≤ 50 :=
  C10_concurrency_ceiling 400 (initState 400 50) SchedReachable.refl

/-! ## C5: round-robin server assignment -/

/-- Appending an element to bucket `i` appends it, up to permutation, to the
flattened list. -/
theorem set_flatten_perm {a : Type} (l : List (List a)) (i : Nat) (x : a)
    (h : i < l.length) :
    ((l.set i (l.getD i [] ++ [x])).flatten).Perm (l.flatten ++ [x]) := by
  induction l generalizing i with
  | nil => simp at h
  | cons b t ih =>
    cases i with
    | zero =>
      simp only [List.getD_cons_zero, List.set_cons_zero, List.flatten_cons,
        List.append_assoc]
      exact List.Perm.append_left b List.perm_append_comm
    | succ i =>
      simp only [List.getD_cons_succ, List.set_cons_succ, List.flatten_cons,
        List.append_assoc]
      have hi : i < t.length := by
        simp only [List.length_cons] at h
        omega
      exact List.Perm.append_left b (ih i hi)

/-- Growth/identity facts about the on-demand bucket padding. -/
theorem pad_facts (buckets : List (List (String × String))) (i : Nat)
    (h : i ≤ buckets.length) :
    i < (if buckets.length ≤ i then buckets ++ [[]] else buckets).length ∧
    (if buckets.length ≤ i then buckets ++ [[]] else buckets).flatten
      = buckets.flatten := by
  split
  case isTrue hc =>
    constructor
    · simp only [List.length_append, List.length_cons, List.length_nil]
      omega
    · simp
  case isFalse hc =>
    exact ⟨by omega, rfl⟩

/-- Function `addProvider` contributes exactly the provider's (name, addr) pairs,
up to permutation, to the flattened bucket list. -/
theorem addProvider_flatten_perm (name : String) (addrs : List String) :
    ∀ (i : Nat) (buckets : List (List (String × String))), i ≤ buckets.length →
    ((addProvider name addrs i buckets).flatten).Perm
      (buckets.flatten ++ addrs.map fun a => (name, a)) := by
  induction addrs with
  | nil =>
    intro i buckets h
    simp [addProvider]
  | cons a rest ih =>
    intro i buckets h
    obtain ⟨hlen, hflat⟩ := pad_facts buckets i h
    simp only [addProvider]
    have h2 : i + 1 ≤
        ((if buckets.length ≤ i then buckets ++ [[]] else buckets).set i
          ((if buckets.length ≤ i then buckets ++ [[]] else buckets).getD i []
            ++ [(name, a)])).length := by
      rw [List.length_set]
      omega
    have hset := set_flatten_perm _ i (name, a) hlen
    rw [hflat] at hset
    refine (ih (i + 1) _ h2).trans ?_
    refine (List.Perm.append_right (rest.map fun a => (name, a)) hset).trans ?_
    simp

/-- Folding `addProvider` over the whole configuration contributes all its
pairs, up to permutation. -/
theorem foldl_flatten_perm (servers : List (String × List String))
    (buckets : List (List (String × String))) :
    ((servers.foldl (fun bs p => addProvider p.1 p.2 0 bs) buckets).flatten).Perm
      (buckets.flatten ++ configPairs servers) := by
  induction servers generalizing buckets with
  | nil => simp [configPairs]
  | cons p rest ih =>
    simp only [List.foldl_cons]
    refine (ih _).trans ?_
    refine (List.Perm.append_right (configPairs rest)
      (addProvider_flatten_perm p.1 p.2 0 buckets (Nat.zero_le _))).trans ?_
    simp [configPairs, List.append_assoc]

/-- Merging an empty right bucket list is the identity. -/
theorem mergeBuckets_nil (X : List (List (String × String))) :
    mergeBuckets X [] = X := by
  cases X with
  | nil => rfl
  | cons x xs => rfl

/-- Bucket merging is associative. -/
theorem mergeBuckets_assoc (X : List (List (String × String))) :
    ∀ Y Z, mergeBuckets (mergeBuckets X Y) Z = mergeBuckets X (mergeBuckets Y Z) := by
  induction X with
  | nil => intro Y Z; rfl
  | cons x xs ih =>
    intro Y Z
    cases Y with
    | nil => rw [mergeBuckets_nil]; rfl
    | cons y ys =>
      cases Z with
      | nil => rw [mergeBuckets_nil, mergeBuckets_nil]
      | cons z zs =>
        simp only [mergeBuckets, List.append_assoc, ih]

/-- Each merged bucket is the concatenation of the two source buckets. -/
theorem mergeBuckets_getD (X : List (List (String × String))) :
    ∀ (Y : List (List (String × String))) (j : Nat),
      (mergeBuckets X Y).getD j [] = X.getD j [] ++ Y.getD j [] := by
  induction X with
  | nil =>
    intro Y j
    simp [mergeBuckets]
  | cons x xs ih =>
    intro Y j
    cases Y with
    | nil => simp [mergeBuckets]
    | cons y ys =>
      cases j with
      | zero => rfl
      | succ j => simpa [mergeBuckets] using ih ys j

/-- Merged bucket lists have the longer of the two lengths. -/
theorem mergeBuckets_length (X : List (List (String × String))) :
    ∀ Y, (mergeBuckets X Y).length = max X.length Y.length := by
  induction X with
  | nil => intro Y; simp [mergeBuckets]
  | cons x xs ih =>
    intro Y
    cases Y with
    | nil => simp [mergeBuckets]
    | cons y ys => simp [mergeBuckets, ih ys, Nat.succ_max_succ]

/-- Merging empty buckets into a long enough bucket list changes nothing. -/
theorem mergeBuckets_replicate (i : Nat) :
    ∀ B : List (List (String × String)), i ≤ B.length →
      mergeBuckets B (List.replicate i []) = B := by
  induction i with
  | zero => intro B _; exact mergeBuckets_nil B
  | succ i ih =>
    intro B hB
    cases B with
    | nil => simp at hB
    | cons b t =>
      simp only [List.length_cons, Nat.add_le_add_iff_right] at hB
      simp only [List.replicate, mergeBuckets, List.append_nil, ih t hB]

/-- One pad-and-set step of the bucket loop, seen through `mergeBuckets`:
appending `x` into bucket `i` commutes with shifting the merge argument. -/
theorem set_pad_merge (x : List (String × String)) (M : List (List (String × String))) :
    ∀ (i : Nat) (B : List (List (String × String))), i ≤ B.length →
    mergeBuckets ((if B.length ≤ i then B ++ [[]] else B).set i
        ((if B.length ≤ i then B ++ [[]] else B).getD i [] ++ x))
      (List.replicate (i + 1) [] ++ M)
      = mergeBuckets B (List.replicate i [] ++ (x :: M)) := by
  intro i
  induction i with
  | zero =>
    intro B hB
    cases B with
    | nil => simp [mergeBuckets]
    | cons b t => simp [mergeBuckets]
  | succ i ih =>
    intro B hB
    cases B with
    | nil => simp at hB
    | cons b t =>
      simp only [List.length_cons, Nat.add_le_add_iff_right] at hB
      have hcond : ((b :: t).length ≤ i + 1) = (t.length ≤ i) := by
        simp
      have hpush : (if (b :: t).length ≤ i + 1 then (b :: t) ++ [[]] else b :: t)
          = b :: (if t.length ≤ i then t ++ [[]] else t) := by
        by_cases hc : t.length ≤ i
        · simp [hc]
        · simp [hc]
      rw [hpush]
      simp only [List.set_cons_succ, List.getD_cons_succ, List.replicate,
        List.cons_append, mergeBuckets, List.append_nil]
      exact congrArg (List.cons b) (ih t hB)

/-- The inner loop for one provider merges that provider's per-index singleton
buckets (shifted by `i`) into the accumulated buckets. -/
theorem addProvider_merge (name : String) (l : List String) :
    ∀ (i : Nat) (B : List (List (String × String))), i ≤ B.length →
      addProvider name l i B
        = mergeBuckets B (List.replicate i [] ++ l.map fun a => [(name, a)]) := by
  induction l with
  | nil =>
    intro i B hB
    simp only [addProvider, List.map_nil, List.append_nil]
    exact (mergeBuckets_replicate i B hB).symm
  | cons a rest ih =>
    intro i B hB
    obtain ⟨hlen, _⟩ := pad_facts B i hB
    simp only [addProvider]
    have h2 : i + 1 ≤
        ((if B.length ≤ i then B ++ [[]] else B).set i
          ((if B.length ≤ i then B ++ [[]] else B).getD i [] ++ [(name, a)])).length := by
      rw [List.length_set]
      omega
    rw [ih (i + 1) _ h2]
    rw [set_pad_merge [(name, a)] (rest.map fun a => [(name, a)]) i B hB]
    simp

/-- Folding the provider loop over the whole configuration merges every
provider's buckets, in configuration order. -/
theorem foldl_addProvider_merge (servers : List (String × List String)) :
    ∀ B : List (List (String × String)),
      servers.foldl (fun bs p => addProvider p.1 p.2 0 bs) B
        = mergeBuckets B (specBuckets servers) := by
  induction servers with
  | nil =>
    intro B
    simp only [List.foldl_nil, specBuckets, mergeBuckets_nil]
  | cons p rest ih =>
    intro B
    simp only [List.foldl_cons, specBuckets]
    rw [ih (addProvider p.1 p.2 0 B)]
    rw [addProvider_merge p.1 p.2 0 B (Nat.zero_le _)]
    simp only [List.replicate, List.nil_append]
    exact mergeBuckets_assoc B _ _

/-- Bucket `j` of the merged spec buckets holds, in configuration order, the
j-th server of every provider that has one. -/
theorem specBuckets_getD (servers : List (String × List String)) :
    ∀ j : Nat, (specBuckets servers).getD j []
      = servers.filterMap fun p => (p.2.get? j).map fun a => (p.1, a) := by
  induction servers with
  | nil => intro j; simp [specBuckets]
  | cons p rest ih =>
    intro j
    simp only [specBuckets]
    rw [mergeBuckets_getD]
    rw [ih j]
    cases hx : p.2.get? j with
    | none =>
      simp [List.filterMap_cons, hx, List.getD_eq_getElem?_getD, List.getElem?_map,
        ← List.get?_eq_getElem?, List.get?_map, hx]
    | some a =>
      simp [List.filterMap_cons, hx, List.getD_eq_getElem?_getD, List.getElem?_map,
        ← List.get?_eq_getElem?, List.get?_map, hx]

/-- The merged spec buckets cover exactly the round-robin indices. -/
theorem specBuckets_length (servers : List (String × List String)) :
    (specBuckets servers).length = maxLen servers := by
  induction servers with
  | nil => rfl
  | cons p rest ih =>
    simp only [specBuckets, maxLen, mergeBuckets_length, List.length_map, ih]

/-- Generic flatMap-over-map composition for ranges of successors. -/
theorem flatMap_map_succ (l : List Nat) (f : Nat → List (String × String)) :
    (l.map Nat.succ).flatMap f = l.flatMap fun j => f (j + 1) := by
  induction l with
  | nil => rfl
  | cons j t ih => simp [ih]

/-- Flattening a bucket list enumerates its buckets by index. -/
theorem flatten_eq_range_flatMap (L : List (List (String × String))) :
    L.flatten = (List.range L.length).flatMap fun j => L.getD j [] := by
  induction L with
  | nil => rfl
  | cons x t ih =>
    simp only [List.flatten_cons, List.length_cons, List.range_succ_eq_map,
      List.flatMap_cons, List.getD_cons_zero, flatMap_map_succ, List.getD_cons_succ]
    rw [ih]

/-- C5: for every provider configuration, `server_addrs` equals the
index-major, provider-order-minor enumeration written from the claim (outer
iteration over server index `i`, inner pass over providers in configuration
order, providers without an i-th server skipped); consequently it lists
exactly the (provider, server) pairs of the configuration (same multiset,
hence each pair exactly once when the configuration has no duplicates), it is
a pure function of the configuration, and on `{A:[a1,a2], B:[b1]}` the order
is `[(A,a1), (B,b1), (A,a2)]`; the actual `SERVERS` configuration yields the
alternating order. -/
theorem C5_round_robin :
    (∀ servers : List (String × List String),
      server_addrs servers = roundRobinSpec servers) ∧
    (∀ servers : List (String × List String),
      (server_addrs servers).Perm (configPairs servers)) ∧
    server_addrs [("A", ["a1", "a2"]), ("B", ["b1"])]
      = [("A", "a1"), ("B", "b1"), ("A", "a2")] ∧
    server_addrs SERVERS
      = [("cloudflare", "1.1.1.1"), ("google", "8.8.8.8"),
         ("cloudflare", "1.0.0.1"), ("google", "8.8.4.4")] := by
  refine ⟨?_, ?_, by decide, by decide⟩
  · intro servers
    unfold server_addrs roundRobinSpec
    rw [foldl_addProvider_merge servers []]
    have hid : mergeBuckets [] (specBuckets servers) = specBuckets servers := rfl
    rw [hid, flatten_eq_range_flatMap, specBuckets_length]
    simp only [specBuckets_getD]
  · intro servers
    have h := foldl_flatten_perm servers []
    simpa [server_addrs] using h

/-! ## Parser lemmas: matching a rendered grammar instance -/

/-- The head of a list with a nonempty prefix prepended is the prefix's head:
`headDigit` form. -/
theorem headDigit_append_lit (l x : List Char) (h1 : l ≠ [])
    (h2 : headDigit l = false) : headDigit (l ++ x) = false := by
  cases l with
  | nil => exact absurd rfl h1
  | cons c t => exact h2

/-- Predicate `headStop` only looks at the head, so a nonempty prefix determines it. -/
theorem headStop_append_lit (l x : List Char) (h1 : l ≠ [])
    (h2 : headStop l = true) : headStop (l ++ x) = true := by
  cases l with
  | nil => exact absurd rfl h1
  | cons c t => exact h2

/-- Predicate `headStop` of a cons only depends on the head character. -/
theorem headStop_cons (c : Char) (x : List Char)
    (h : (!c.isDigit && c != '.') = true) : headStop (c :: x) = true := h

/-- Digit-run matching splits off a maximal all-digit prefix. -/
theorem takeDigits_append (d r : List Char) (hd : d.all Char.isDigit = true)
    (hr : headDigit r = false) : takeDigits (d ++ r) = (d, r) := by
  induction d with
  | nil =>
    cases r with
    | nil => rfl
    | cons c t =>
      simp only [headDigit] at hr
      simp [takeDigits, hr]
  | cons c d ih =>
    simp only [List.all_cons, Bool.and_eq_true] at hd
    simp [takeDigits, hd.1, ih hd.2]

/-- Pattern `INT` matches exactly a well-formed digit run followed by a non-digit. -/
theorem parseINT_append (d r : List Char) (hd : goodINT d = true)
    (hr : headDigit r = false) : parseINT (d ++ r) = some (d, r) := by
  simp only [goodINT, Bool.and_eq_true, Bool.not_eq_true', List.isEmpty_eq_false] at hd
  simp [parseINT, takeDigits_append d r hd.2 hr, hd.1]

/-- Pattern `FLOAT` matches exactly a well-formed rendered token followed by a
character that is neither a digit nor a dot. -/
theorem parseFLOAT_append (t : FloatTok) (r : List Char) (ht : t.good = true)
    (hr : headStop r = true) : parseFLOAT (t.render ++ r) = some (t.render, r) := by
  obtain ⟨ip, fp⟩ := t
  simp only [FloatTok.good, Bool.and_eq_true, Bool.not_eq_true',
    List.isEmpty_eq_false] at ht
  obtain ⟨⟨hne, hall⟩, hfp⟩ := ht
  have hdr : ∀ u : List Char, headStop u = true → headDigit u = false := by
    intro u hu
    cases u with
    | nil => rfl
    | cons c v =>
      simp only [headStop, Bool.and_eq_true, Bool.not_eq_true'] at hu
      exact hu.1
  cases fp with
  | none =>
    simp only [FloatTok.render]
    rw [List.append_nil]
    have h1 : takeDigits (ip ++ r) = (ip, r) := takeDigits_append ip r hall (hdr r hr)
    cases r with
    | nil =>
      rw [List.append_nil] at h1
      simp [parseFLOAT, h1, hne, floatRest]
    | cons c u =>
      simp only [headStop, Bool.and_eq_true, Bool.not_eq_true', bne_iff_ne] at hr
      simp [parseFLOAT, h1, hne, floatRest, hr.2]
  | some f =>
    simp only [FloatTok.render]
    have hsh : (ip ++ '.' :: f) ++ r = ip ++ '.' :: (f ++ r) := by
      simp
    rw [hsh]
    have h1 : takeDigits (ip ++ '.' :: (f ++ r)) = (ip, '.' :: (f ++ r)) :=
      takeDigits_append ip ('.' :: (f ++ r)) hall (by simp [headDigit, Char.isDigit])
    have h2 : takeDigits (f ++ r) = (f, r) := takeDigits_append f r hfp (hdr r hr)
    simp [parseFLOAT, h1, hne, floatRest, h2]

/-- Literal matching consumes exactly the literal. -/
theorem dropLit_append (l s : List Char) : dropLit l (l ++ s) = some s := by
  induction l with
  | nil => rfl
  | cons c t ih => simp [dropLit, ih]

/-- Single-character literal against a cons. -/
theorem dropLit_single (c : Char) (s : List Char) : dropLit [c] (c :: s) = some s := by
  simp [dropLit]

/-- A `+` literal never matches input beginning with a digit. -/
theorem dropLit_plus_digit (s : List Char) (h : headDigit s = true) :
    dropLit ['+'] s = none := by
  cases s with
  | nil => simp [headDigit] at h
  | cons c t =>
    simp only [headDigit] at h
    have hne : ('+' : Char) ≠ c := by
      intro he
      rw [← he] at h
      exact absurd h (by decide)
    simp [dropLit, hne]

/-- A well-formed `FLOAT` token renders with a digit head. -/
theorem headDigit_render (t : FloatTok) (ht : t.good = true) (r : List Char) :
    headDigit (t.render ++ r) = true := by
  obtain ⟨ip, fp⟩ := t
  simp only [FloatTok.good, Bool.and_eq_true, Bool.not_eq_true',
    List.isEmpty_eq_false] at ht
  obtain ⟨⟨hne, hall⟩, hfp⟩ := ht
  cases ip with
  | nil => exact absurd rfl hne
  | cons c u =>
    simp only [List.all_cons, Bool.and_eq_true] at hall
    simp only [FloatTok.render, List.cons_append, headDigit]
    exact hall.1

/-- Unfolding of `Option.orElse` with an explicit thunk, on a `some`. -/
theorem some_orElse_t {a : Type} (x : a) (f : Unit → Option a) :
    (some x).orElse f = some x := rfl

/-- Unfolding of `Option.orElse` with an explicit thunk, on a `none`. -/
theorem none_orElse_t {a : Type} (f : Unit → Option a) :
    (none : Option a).orElse f = f () := rfl

/-- The rtt line matcher consumes a rendered rtt line and captures its tokens. -/
theorem matchRtt_render (a b c d : FloatTok) (ha : a.good = true)
    (hb : b.good = true) (hc : c.good = true) (hd : d.good = true) :
    matchRtt ("rtt min/avg/max/mdev = ".toList ++
        (a.render ++ ('/' :: (b.render ++ ('/' :: (c.render ++
          ('/' :: (d.render ++ (" ms".toList ++ ['\n'])))))))))
      = some (⟨a.render, b.render, c.render, d.render⟩, ['\n']) := by
  have ea := parseFLOAT_append a
    ('/' :: (b.render ++ ('/' :: (c.render ++ ('/' :: (d.render ++
      (" ms".toList ++ ['\n']))))))) ha (headStop_cons '/' _ (by decide))
  have eb := parseFLOAT_append b
    ('/' :: (c.render ++ ('/' :: (d.render ++ (" ms".toList ++ ['\n'])))))
    hb (headStop_cons '/' _ (by decide))
  have ec := parseFLOAT_append c
    ('/' :: (d.render ++ (" ms".toList ++ ['\n'])))
    hc (headStop_cons '/' _ (by decide))
  have ed := parseFLOAT_append d (" ms".toList ++ ['\n']) hd
    (headStop_append_lit _ _ (by decide) (by decide))
  unfold matchRtt
  simp only [dropLit_append, Option.some_bind, ea, eb, ec, ed, dropLit_single,
    Option.map_some']

/-- The pattern tail matcher accepts a rendered optional rtt line. -/
theorem matchTail2_render (rtt : Option (FloatTok × FloatTok × FloatTok × FloatTok))
    (hr : (match rtt with
      | none => true
      | some (a, b, c, d) => a.good && b.good && c.good && d.good) = true) :
    matchTail2 (rttPart rtt) = some (rtt.map rttRender) := by
  cases rtt with
  | none => decide
  | some q =>
    obtain ⟨a, b, c, d⟩ := q
    have hr' : (a.good && b.good && c.good && d.good) = true := hr
    simp only [Bool.and_eq_true] at hr'
    obtain ⟨⟨⟨ha, hb⟩, hc⟩, hd⟩ := hr'
    unfold matchTail2
    simp only [rttPart, matchRtt_render a b c d ha hb hc hd, Option.some_bind,
      dropLit_single, if_pos, some_orElse_t, Option.map_some', rttRender]

/-- The statistics-tail matcher accepts a rendered tail (from the loss group on). -/
theorem matchAfterErrors_render (tr rc : List Char) (loss time : FloatTok)
    (rtt : Option (FloatTok × FloatTok × FloatTok × FloatTok))
    (hl : loss.good = true) (htm : time.good = true)
    (hr : (match rtt with
      | none => true
      | some (a, b, c, d) => a.good && b.good && c.good && d.good) = true) :
    matchAfterErrors tr rc
      (loss.render ++ ("% packet loss, time ".toList ++
        (time.render ++ ("ms".toList ++ ('\n' :: rttPart rtt)))))
      = some ⟨tr, rc, loss.render, rtt.map rttRender⟩ := by
  have e1 := parseFLOAT_append loss
    ("% packet loss, time ".toList ++ (time.render ++ ("ms".toList ++
      ('\n' :: rttPart rtt)))) hl (headStop_append_lit _ _ (by decide) (by decide))
  have e2 := parseFLOAT_append time
    ("ms".toList ++ ('\n' :: rttPart rtt)) htm
    (headStop_append_lit _ _ (by decide) (by decide))
  unfold matchAfterErrors
  simp only [e1, Option.some_bind, dropLit_append, e2, dropLit_single,
    matchTail2_render rtt hr, Option.map_some']

/-- The anchored matcher accepts any well-formed rendered grammar instance and
captures its group texts. -/
theorem matchAt_render (g : PingOutput) (hg : g.good = true) :
    matchAt g.render
      = some ⟨g.transmitted, g.received, g.loss.render, g.rtt.map rttRender⟩ := by
  obtain ⟨tr, rc, errs, loss, time, rtt⟩ := g
  simp only [PingOutput.good, Bool.and_eq_true] at hg
  obtain ⟨⟨⟨⟨⟨h1, h2⟩, h3⟩, h4⟩, h5⟩, h6⟩ := hg
  have hafter := matchAfterErrors_render tr rc loss time rtt h4 h5 h6
  unfold matchAt PingOutput.render
  cases errs with
  | none =>
    have e1 := parseINT_append tr
      (" packets transmitted, ".toList ++ (rc ++ (" received, ".toList ++
        (loss.render ++ ("% packet loss, time ".toList ++
          (time.render ++ ("ms".toList ++ ('\n' :: rttPart rtt)))))))) h1
      (headDigit_append_lit _ _ (by decide) (by decide))
    have e2 := parseINT_append rc
      (" received, ".toList ++ (loss.render ++ ("% packet loss, time ".toList ++
        (time.render ++ ("ms".toList ++ ('\n' :: rttPart rtt)))))) h2
      (headDigit_append_lit _ _ (by decide) (by decide))
    have eplus := dropLit_plus_digit
      (loss.render ++ ("% packet loss, time ".toList ++
        (time.render ++ ("ms".toList ++ ('\n' :: rttPart rtt)))))
      (headDigit_render loss h4 _)
    simp only [errPart, List.nil_append, e1, Option.some_bind, dropLit_append,
      e2, eplus, Option.none_bind, none_orElse_t, hafter]
  | some n =>
    have h3' : goodINT n = true := h3
    have e1 := parseINT_append tr
      (" packets transmitted, ".toList ++ (rc ++ (" received, ".toList ++
        ('+' :: (n ++ (" errors, ".toList ++ (loss.render ++
          ("% packet loss, time ".toList ++ (time.render ++ ("ms".toList ++
            ('\n' :: rttPart rtt))))))))))) h1
      (headDigit_append_lit _ _ (by decide) (by decide))
    have e2 := parseINT_append rc
      (" received, ".toList ++ ('+' :: (n ++ (" errors, ".toList ++
        (loss.render ++ ("% packet loss, time ".toList ++ (time.render ++
          ("ms".toList ++ ('\n' :: rttPart rtt))))))))) h2
      (headDigit_append_lit _ _ (by decide) (by decide))
    have e3 := parseINT_append n
      (" errors, ".toList ++ (loss.render ++ ("% packet loss, time ".toList ++
        (time.render ++ ("ms".toList ++ ('\n' :: rttPart rtt)))))) h3'
      (headDigit_append_lit _ _ (by decide) (by decide))
    simp only [errPart, List.cons_append, List.append_assoc, e1, Option.some_bind,
      dropLit_append, e2, dropLit_single, e3, hafter, some_orElse_t]

/-- A successful anchored match at the start is found by the scan. -/
theorem pingSearch_of_matchAt {s : List Char} {g : PingGroups}
    (h : matchAt s = some g) : pingSearch s = some g := by
  cases s with
  | nil => rw [pingSearch]; exact h
  | cons c t => simp only [pingSearch, h, some_orElse_t]

/-! ## C6: the parser on grammar-conforming input -/

/-- C6: every text matching the two-line grammar (with nothing after it) is
accepted: `transmitted`/`received` are exactly the integers denoted by the
digit runs of the statistics line, packet loss is the reported percentage
divided by 100, the four latency fields carry the rtt tokens when the rtt line
is present, and when it is absent (100% loss output) all four are recorded as
absent (`none`), not zero. -/
theorem C6_grammar_parses (g : PingOutput) (hg : g.good = true) :
    PingResults g.render = .ok
      { transmitted := digitsToNat g.transmitted
        received := digitsToNat g.received
        packet_loss := floatVal g.loss.render / 100
        min := g.rtt.map fun r => floatVal r.1.render
        avg := g.rtt.map fun r => floatVal r.2.1.render
        max := g.rtt.map fun r => floatVal r.2.2.1.render
        mdev := g.rtt.map fun r => floatVal r.2.2.2.render } ∧
    (g.rtt = none → PingResults g.render = .ok
      { transmitted := digitsToNat g.transmitted
        received := digitsToNat g.received
        packet_loss := floatVal g.loss.render / 100
        min := none, avg := none, max := none, mdev := none }) := by
  have hs := pingSearch_of_matchAt (matchAt_render g hg)
  constructor
  · simp only [PingResults, hs, Option.map_map, Function.comp_def, rttRender]
  · intro hnone
    simp only [PingResults, hs, hnone, Option.map_none']

theorem C6_witness :
    PingResults g0.render = .ok ⟨10, 9, 0, some 1, some 2, some 3, some 0⟩ ∧
    PingResults g1.render = .ok ⟨1, 0, 1, none, none, none, none⟩ := by
  have f0 : floatVal (FloatTok.render ⟨['0'], none⟩) = ((0 : ℕ) : ℚ) := rfl
  have f1 : floatVal (FloatTok.render ⟨['1'], none⟩) = ((1 : ℕ) : ℚ) := rfl
  have f2 : floatVal (FloatTok.render ⟨['2'], none⟩) = ((2 : ℕ) : ℚ) := rfl
  have f3 : floatVal (FloatTok.render ⟨['3'], none⟩) = ((3 : ℕ) : ℚ) := rfl
  have f100 : floatVal (FloatTok.render ⟨['1', '0', '0'], none⟩) = ((100 : ℕ) : ℚ) := rfl
  have d10 : digitsToNat ['1', '0'] = 10 := rfl
  have d9 : digitsToNat ['9'] = 9 := rfl
  have d1 : digitsToNat ['1'] = 1 := rfl
  have d0 : digitsToNat ['0'] = 0 := rfl
  constructor
  · rw [(C6_grammar_parses g0 (by decide)).1]
    simp only [g0, Option.map_some', f0, f1, f2, f3, d10, d9]
    norm_num
  · rw [(C6_grammar_parses g1 (by decide)).2 rfl]
    simp only [g1, f100, d1, d0]
    norm_num

/-! ## Reverse-direction parser lemmas (used for rejection results)

A successful match decomposes the input, so a match forces the input to end in
a newline and to contain the literal statistics-line text. -/

/-- Function `takeDigits` splits its input. -/
theorem takeDigits_split (s : List Char) : s = (takeDigits s).1 ++ (takeDigits s).2 := by
  induction s with
  | nil => rfl
  | cons c t ih =>
    by_cases h : c.isDigit
    · simp only [takeDigits, h, if_true]
      exact congrArg (c :: ·) ih
    · simp [takeDigits, h]

/-- A successful `INT` match splits the input. -/
theorem parseINT_split {s d r : List Char} (h : parseINT s = some (d, r)) :
    s = d ++ r := by
  have hs := takeDigits_split s
  unfold parseINT at h
  by_cases he : (takeDigits s).1 = []
  · simp [he] at h
  · simp only [he, if_false, Option.some.injEq] at h
    rw [h] at hs
    exact hs

/-- A successful `FLOAT` match splits the input. -/
theorem parseFLOAT_split {s t r : List Char} (h : parseFLOAT s = some (t, r)) :
    s = t ++ r := by
  have hs := takeDigits_split s
  unfold parseFLOAT at h
  by_cases he : (takeDigits s).1 = []
  · simp [he] at h
  · simp only [he, if_false] at h
    cases h2 : (takeDigits s).2 with
    | nil =>
      rw [h2] at h hs
      unfold floatRest at h
      simp only [Option.some.injEq, Prod.mk.injEq] at h
      rw [← h.1, ← h.2]
      simpa using hs
    | cons c u =>
      rw [h2] at h hs
      unfold floatRest at h
      by_cases hc : c = '.'
      · subst hc
        simp only [if_true, Option.some.injEq, Prod.mk.injEq] at h
        have hu := takeDigits_split u
        rw [← h.1, ← h.2]
        calc s = (takeDigits s).1 ++ '.' :: u := hs
          _ = (takeDigits s).1 ++ '.' ::
              ((takeDigits u).1 ++ (takeDigits u).2) := by rw [← hu]
          _ = ((takeDigits s).1 ++ '.' :: (takeDigits u).1) ++ (takeDigits u).2 := by
              simp
      · simp only [hc, if_false, Option.some.injEq, Prod.mk.injEq] at h
        rw [← h.1, ← h.2]
        exact hs

/-- A successful literal match splits the input. -/
theorem dropLit_split : ∀ {l s r : List Char}, dropLit l s = some r → s = l ++ r := by
  intro l
  induction l with
  | nil =>
    intro s r h
    simp only [dropLit, Option.some.injEq] at h
    rw [h]
    rfl
  | cons c t ih =>
    intro s r h
    cases s with
    | nil => simp [dropLit] at h
    | cons d s2 =>
      unfold dropLit at h
      by_cases hc : c = d
      · subst hc
        simp only [if_true] at h
        rw [List.cons_append, ← ih h]
      · simp [hc] at h

/-- Case split for `Option.orElse` with an explicit thunk. -/
theorem orElse_eq_some_t {a : Type} {x : Option a} {f : Unit → Option a} {v : a}
    (h : x.orElse f = some v) : x = some v ∨ (x = none ∧ f () = some v) := by
  cases x with
  | none => exact Or.inr ⟨rfl, h⟩
  | some y => exact Or.inl h

/-- The rest returned by a literal match is a suffix of the input. -/
theorem dropLit_suffix {l s r : List Char} (h : dropLit l s = some r) : r <:+ s :=
  ⟨l, (dropLit_split h).symm⟩

/-- The rest returned by an `INT` match is a suffix of the input. -/
theorem parseINT_suffix {s : List Char} {p : List Char × List Char}
    (h : parseINT s = some p) : p.2 <:+ s := by
  obtain ⟨d, r⟩ := p
  exact ⟨d, (parseINT_split h).symm⟩

/-- The rest returned by a `FLOAT` match is a suffix of the input. -/
theorem parseFLOAT_suffix {s : List Char} {p : List Char × List Char}
    (h : parseFLOAT s = some p) : p.2 <:+ s := by
  obtain ⟨t, r⟩ := p
  exact ⟨t, (parseFLOAT_split h).symm⟩

/-- A nonempty suffix pins down the last element. -/
theorem suffix_getLast {a : Type} {r s : List a} (h : r <:+ s) (hne : r ≠ []) :
    s.getLast? = r.getLast? ∧ s ≠ [] := by
  obtain ⟨p, hp⟩ := h
  subst hp
  refine ⟨List.getLast?_append_of_ne_nil p hne, ?_⟩
  intro hcon
  exact hne (List.append_eq_nil.mp hcon).2

/-- The rest returned by the rtt-line matcher is a suffix of the input. -/
theorem matchRtt_suffix {s : List Char} {p : RttG × List Char}
    (h : matchRtt s = some p) : p.2 <:+ s := by
  unfold matchRtt at h
  rw [Option.bind_eq_some] at h
  obtain ⟨s1, hs1, h⟩ := h
  rw [Option.bind_eq_some] at h
  obtain ⟨a, ha, h⟩ := h
  rw [Option.bind_eq_some] at h
  obtain ⟨s2, hs2, h⟩ := h
  rw [Option.bind_eq_some] at h
  obtain ⟨b, hb, h⟩ := h
  rw [Option.bind_eq_some] at h
  obtain ⟨s3, hs3, h⟩ := h
  rw [Option.bind_eq_some] at h
  obtain ⟨c, hc, h⟩ := h
  rw [Option.bind_eq_some] at h
  obtain ⟨s4, hs4, h⟩ := h
  rw [Option.bind_eq_some] at h
  obtain ⟨d, hd, h⟩ := h
  rw [Option.map_eq_some'] at h
  obtain ⟨s5, h5, hmap⟩ := h
  rw [← hmap]
  exact ((((((((dropLit_suffix h5).trans
    (parseFLOAT_suffix hd)).trans
    (dropLit_suffix hs4)).trans
    (parseFLOAT_suffix hc)).trans
    (dropLit_suffix hs3)).trans
    (parseFLOAT_suffix hb)).trans
    (dropLit_suffix hs2)).trans
    (parseFLOAT_suffix ha)).trans
    (dropLit_suffix hs1)

/-- A successful tail match forces the input to be nonempty and newline-final. -/
theorem matchTail2_newline {s : List Char} {o : Option RttG}
    (h : matchTail2 s = some o) : s ≠ [] ∧ s.getLast? = some '\n' := by
  unfold matchTail2 at h
  rcases orElse_eq_some_t h with h1 | ⟨_, h2⟩
  · rw [Option.bind_eq_some] at h1
    obtain ⟨r, hr, h1⟩ := h1
    rw [Option.bind_eq_some] at h1
    obtain ⟨s6, h6, h1⟩ := h1
    have h60 : s6 = [] := by
      by_cases hcs : s6 = []
      · exact hcs
      · simp [hcs] at h1
    subst h60
    have hr2 : r.2 = ['\n'] := by
      have := dropLit_split h6
      simpa using this
    have hsuf := matchRtt_suffix hr
    rw [hr2] at hsuf
    have hg := suffix_getLast hsuf (by simp)
    refine ⟨hg.2, ?_⟩
    rw [hg.1]
    rfl
  · rw [Option.bind_eq_some] at h2
    obtain ⟨s6, h6, h2⟩ := h2
    have h60 : s6 = [] := by
      by_cases hcs : s6 = []
      · exact hcs
      · simp [hcs] at h2
    subst h60
    have hs := dropLit_split h6
    simp only [List.append_nil] at hs
    subst hs
    exact ⟨by simp, rfl⟩

/-- A successful match of the statistics tail forces a newline-final input. -/
theorem matchAfterErrors_newline {tr rc s : List Char} {g : PingGroups}
    (h : matchAfterErrors tr rc s = some g) : s ≠ [] ∧ s.getLast? = some '\n' := by
  unfold matchAfterErrors at h
  rw [Option.bind_eq_some] at h
  obtain ⟨loss, hloss, h⟩ := h
  rw [Option.bind_eq_some] at h
  obtain ⟨s4, hs4, h⟩ := h
  rw [Option.bind_eq_some] at h
  obtain ⟨t, ht, h⟩ := h
  rw [Option.bind_eq_some] at h
  obtain ⟨s5, hs5, h⟩ := h
  rw [Option.bind_eq_some] at h
  obtain ⟨s6, hs6, h⟩ := h
  rw [Option.map_eq_some'] at h
  obtain ⟨rtt, hrtt, _⟩ := h
  have h6 := matchTail2_newline hrtt
  have hsuf : s6 <:+ s :=
    ((((dropLit_suffix hs6).trans
      (dropLit_suffix hs5)).trans
      (parseFLOAT_suffix ht)).trans
      (dropLit_suffix hs4)).trans
      (parseFLOAT_suffix hloss)
  have hg := suffix_getLast hsuf h6.1
  refine ⟨hg.2, ?_⟩
  rw [hg.1]
  exact h6.2

/-- A successful anchored match forces a newline-final input containing the
literal text of the statistics line. -/
theorem matchAt_props {s : List Char} {g : PingGroups} (h : matchAt s = some g) :
    s.getLast? = some '\n' ∧ " packets transmitted, ".toList <:+: s := by
  unfold matchAt at h
  rw [Option.bind_eq_some] at h
  obtain ⟨tr, htr, h⟩ := h
  rw [Option.bind_eq_some] at h
  obtain ⟨s1, hs1, h⟩ := h
  rw [Option.bind_eq_some] at h
  obtain ⟨rc, hrc, h⟩ := h
  rw [Option.bind_eq_some] at h
  obtain ⟨s2, hs2, h⟩ := h
  have hsuf2 : s2 <:+ s :=
    (((dropLit_suffix hs2).trans (parseINT_suffix hrc)).trans
      (dropLit_suffix hs1)).trans (parseINT_suffix htr)
  have hinfix : " packets transmitted, ".toList <:+: s := by
    obtain ⟨d, r⟩ := tr
    have hsplit : s = d ++ r := parseINT_split htr
    have hlit : r = " packets transmitted, ".toList ++ s1 := dropLit_split hs1
    exact ⟨d, s1, by rw [hsplit, hlit, List.append_assoc]⟩
  refine ⟨?_, hinfix⟩
  rcases orElse_eq_some_t h with hb | ⟨_, hb⟩
  · rw [Option.bind_eq_some] at hb
    obtain ⟨e1, he1, hb⟩ := hb
    rw [Option.bind_eq_some] at hb
    obtain ⟨n, hn, hb⟩ := hb
    rw [Option.bind_eq_some] at hb
    obtain ⟨s3, hs3, hb⟩ := hb
    have hml := matchAfterErrors_newline hb
    have hsuf : s3 <:+ s :=
      (((dropLit_suffix hs3).trans (parseINT_suffix hn)).trans
        (dropLit_suffix he1)).trans hsuf2
    have hg := suffix_getLast hsuf hml.1
    rw [hg.1]
    exact hml.2
  · have hml := matchAfterErrors_newline hb
    have hg := suffix_getLast hsuf2 hml.1
    rw [hg.1]
    exact hml.2

/-- The scan only succeeds on newline-final inputs containing the literal
statistics-line text. -/
theorem pingSearch_props {s : List Char} {g : PingGroups}
    (h : pingSearch s = some g) :
    s.getLast? = some '\n' ∧ " packets transmitted, ".toList <:+: s := by
  induction s with
  | nil =>
    rw [pingSearch] at h
    have h0 : matchAt ([] : List Char) = none := by decide
    rw [h0] at h
    cases h
  | cons c t ih =>
    rw [pingSearch] at h
    rcases orElse_eq_some_t h with h1 | ⟨_, h2⟩
    · exact matchAt_props h1
    · have hp := ih h2
      have ht : t ≠ [] := by
        intro he
        rw [he] at hp
        simp at hp
      constructor
      · cases t with
        | nil => exact absurd rfl ht
        | cons d u => rw [List.getLast?_cons_cons]; exact hp.1
      · obtain ⟨p, q, hpq⟩ := hp.2
        exact ⟨c :: p, q, by rw [List.cons_append, List.cons_append, hpq]⟩

/-! ## C7: parser rejection -/

/-- C7 (counterexample): an input consisting of a complete two-line grammar
text followed by trailing content does NOT always fail: because the regex is
searched (anchored only at the end), the parse succeeds whenever the input
still ends with a complete grammar match. Here the trailing content is itself
a grammar text; the second conjunct shows the prefix alone is a complete
grammar match, so the input is grammar-plus-trailing-content. -/
theorem C7_counterexample :
    (PingResults
      ("1 packets transmitted, 1 received, 0% packet loss, time 0ms\n\n".toList ++
        "1 packets transmitted, 1 received, 0% packet loss, time 0ms\n\n".toList)).toBool
      = true ∧
    (PingResults
      "1 packets transmitted, 1 received, 0% packet loss, time 0ms\n\n".toList).toBool
      = true := by
  constructor <;> decide

/-- C7 (amended): the parser raises `RuntimeError` carrying the raw text
(prefixed by a newline) whenever the input does not end in a newline — in
particular for any trailing content after the final newline of the grammar —
and whenever the input lacks the literal statistics-line text entirely
(missing the mandatory statistics line). An input that contains a complete
grammar followed by trailing content still succeeds when the whole input ends
with a complete grammar match (leading content is skipped by the search). -/
theorem C7_rejects (s : List Char) :
    (s.getLast? ≠ some '\n' → PingResults s = .error ('\n' :: s)) ∧
    (¬ " packets transmitted, ".toList <:+: s → PingResults s = .error ('\n' :: s)) := by
  constructor
  · intro hne
    cases hs : pingSearch s with
    | none => simp [PingResults, hs]
    | some m => exact absurd (pingSearch_props hs).1 hne
  · intro hni
    cases hs : pingSearch s with
    | none => simp [PingResults, hs]
    | some m => exact absurd (pingSearch_props hs).2 hni

theorem C7_witness :
    PingResults "junk output".toList = .error ('\n' :: "junk output".toList) ∧
    PingResults ['\n'] = .error ['\n', '\n'] :=
  ⟨(C7_rejects "junk output".toList).1 (by decide),
   (C7_rejects ['\n']).2 (by decide)⟩

/-! ## C8: invariants of parsed results -/

/-- C8 (counterexample): the parser enforces no relation between the numeric
fields: this grammar-conforming input yields received = 5 > transmitted = 1
and packet-loss fraction 5 > 1, violating the claimed data-model invariants. -/
theorem C8_counterexample :
    PingResults "1 packets transmitted, 5 received, 500% packet loss, time 0ms\n\n".toList
      = .ok ⟨1, 5, 5, none, none, none, none⟩ ∧ ¬ (5 : ℕ) ≤ 1 := by
  have hs : pingSearch
      "1 packets transmitted, 5 received, 500% packet loss, time 0ms\n\n".toList
      = some ⟨['1'], ['5'], ['5', '0', '0'], none⟩ := by decide
  have f500 : floatVal ['5', '0', '0'] = ((500 : ℕ) : ℚ) := rfl
  have d1 : digitsToNat ['1'] = 1 := rfl
  have d5 : digitsToNat ['5'] = 5 := rfl
  constructor
  · simp only [PingResults, hs, f500, d1, d5, Option.map_none']
    norm_num
  · omega

/-- Python `float()` of a `FLOAT` token text is non-negative (no sign in the grammar). -/
theorem floatVal_nonneg (t : List Char) : 0 ≤ floatVal t := by
  unfold floatVal
  cases htd : (takeDigits t).2 with
  | nil =>
    simp only [htd]
    positivity
  | cons c fp =>
    simp only [htd]
    split
    · positivity
    · positivity

/-- C8 (amended): for every result the parser constructs, transmitted and
received are (non-negative) naturals, the packet-loss fraction is non-negative,
and the four latency statistics are jointly present or jointly absent; the
parser does not enforce received ≤ transmitted, loss ≤ 1, or the link between
latency presence and received > 0. -/
theorem C8_invariants (s : List Char) (r : PingData) (h : PingResults s = .ok r) :
    (r.min.isSome = r.avg.isSome ∧ r.avg.isSome = r.max.isSome ∧
      r.max.isSome = r.mdev.isSome) ∧ 0 ≤ r.packet_loss := by
  unfold PingResults at h
  cases hs : pingSearch s with
  | none =>
    rw [hs] at h
    cases h
  | some m =>
    rw [hs] at h
    simp only [Except.ok.injEq] at h
    subst h
    refine ⟨⟨?_, ?_, ?_⟩, ?_⟩
    · cases m.rtt <;> rfl
    · cases m.rtt <;> rfl
    · cases m.rtt <;> rfl
    · have h0 := floatVal_nonneg m.packet_loss
      positivity

theorem C8_witness :
    ((some (1 : ℚ)).isSome = (some (2 : ℚ)).isSome ∧
      (some (2 : ℚ)).isSome = (some (3 : ℚ)).isSome ∧
      (some (3 : ℚ)).isSome = (some (0 : ℚ)).isSome) ∧
    (0 : ℚ) ≤ 0 := by
  refine C8_invariants
    "1 packets transmitted, 1 received, 0% packet loss, time 0ms\nrtt min/avg/max/mdev = 1/2/3/0 ms\n".toList
    ⟨1, 1, 0, some 1, some 2, some 3, some 0⟩ ?_
  have hs : pingSearch
      "1 packets transmitted, 1 received, 0% packet loss, time 0ms\nrtt min/avg/max/mdev = 1/2/3/0 ms\n".toList
      = some ⟨['1'], ['1'], ['0'], some ⟨['1'], ['2'], ['3'], ['0']⟩⟩ := by decide
  have d1 : digitsToNat ['1'] = 1 := rfl
  have f0 : floatVal ['0'] = ((0 : ℕ) : ℚ) := rfl
  have f1 : floatVal ['1'] = ((1 : ℕ) : ℚ) := rfl
  have f2 : floatVal ['2'] = ((2 : ℕ) : ℚ) := rfl
  have f3 : floatVal ['3'] = ((3 : ℕ) : ℚ) := rfl
  simp only [PingResults, hs, Option.map_some', d1, f0, f1, f2, f3]
  norm_num

end DnsCompare
